import Mathlib

/-! # glabs: assignment-configuration resolution (`config/config.go`)

Shallow embedding of `GetAssignmentConfig` and its helpers.

* The process-wide `viper` singleton is made explicit as a `Store` value whose
  fields are the accessor functions the code calls.
* `log.Fatal()...Msg(m)` ends the process; it is embedded as `Except.error m`,
  so a function that can reach it returns `Except String _`.
* A Go `map[string]V` is a `GoMap V`: a list of entries with pairwise distinct
  keys.  Go leaves the order of `range` over a map unspecified, and may choose
  a different one at every execution of a `range` statement; a `RangeOrder`
  supplies one admissible choice per execution.
* A `nil` slice and an empty slice are both the empty list; a `nil` pointer is
  `none`.
-/

namespace Glabs

/-! ## Go maps -/

/-- Go `map[string]V`: finitely many entries, no key twice. -/
structure GoMap (V : Type) where
  entries : List (String × V)
  nodup : (entries.map Prod.fst).Nodup

/-- Entry update on the underlying list: overwrite the value of an existing key,
otherwise add the entry. -/
def setEntries {V : Type} : List (String × V) → String → V → List (String × V)
  | [], k, v => [(k, v)]
  | e :: t, k, v => if e.1 = k then (k, v) :: t else e :: setEntries t k v

theorem keys_setEntries {V : Type} (l : List (String × V)) (k : String) (v : V) :
    (setEntries l k v).map Prod.fst =
      if k ∈ l.map Prod.fst then l.map Prod.fst else l.map Prod.fst ++ [k] := by
  induction l with
  | nil => simp [setEntries]
  | cons e t ih =>
    by_cases h : e.1 = k
    · simp [setEntries, h]
    · have h2 : ¬ k = e.1 := fun h3 => h h3.symm
      simp only [setEntries, h, if_false, List.map_cons, ih, List.mem_cons, h2, false_or]
      split <;> simp

theorem nodup_setEntries {V : Type} (l : List (String × V)) (k : String) (v : V)
    (h : (l.map Prod.fst).Nodup) : ((setEntries l k v).map Prod.fst).Nodup := by
  rw [keys_setEntries]
  split
  · exact h
  · rename_i hk
    rw [List.nodup_append]
    refine ⟨h, List.nodup_singleton k, ?_⟩
    intro a ha hb
    simp only [List.mem_singleton] at hb
    subst hb
    exact hk ha

namespace GoMap

/-- Go `make(map[string]V)`. -/
def empty {V : Type} : GoMap V := ⟨[], List.nodup_nil⟩

/-- Go `len(m)`. -/
def len {V : Type} (m : GoMap V) : Nat := m.entries.length

/-- Go `v, ok := m[k]`: `some v` when `ok`, `none` otherwise. -/
def get? {V : Type} (m : GoMap V) (k : String) : Option V := m.entries.lookup k

/-- Go `m[k] = v`. -/
def set {V : Type} (m : GoMap V) (k : String) (v : V) : GoMap V :=
  ⟨setEntries m.entries k v, nodup_setEntries m.entries k v m.nodup⟩

end GoMap

/-- One admissible behaviour of `range` over a map: the `i`-th execution of a
`range` statement visits the entries in the order `visit i`, some rearrangement
of them. -/
structure RangeOrder (V : Type) where
  visit : Nat → List (String × V) → List (String × V)
  perm : ∀ i l, (visit i l).Perm l

/-- The iteration order that follows the entry list. -/
def RangeOrder.listed (V : Type) : RangeOrder V := ⟨fun _ l => l, fun _ l => List.Perm.refl l⟩

/-- The iteration order that runs through the entry list backwards. -/
def RangeOrder.backwards (V : Type) : RangeOrder V :=
  ⟨fun _ l => l.reverse, fun _ l => List.reverse_perm l⟩

/-! ## The configuration store -/

/-- The accessors of the `viper` store used by the code. -/
structure Store where
  IsSet : String → Bool
  GetString : String → String
  GetBool : String → Bool
  GetStringSlice : String → List String
  GetStringMapString : String → GoMap String
  GetStringMapStringSlice : String → GoMap (List String)

/-! ## Data model -/

/-- Go `type Per string`. -/
abbrev Per := String

def PerStudent : Per := "Student"
def PerGroup : Per := "Group"
def PerFailed : Per := "could not happen"

structure Startercode where
  URL : String
  FromBranch : String
  ToBranch : String
  ProtectToBranch : Bool
  deriving DecidableEq, Repr

structure Group where
  GroupName : String
  Members : List String
  deriving DecidableEq, Repr

/-- Go `type AccessLevel int`. -/
abbrev AccessLevel := Int

def Guest : AccessLevel := 10
def Reporter : AccessLevel := 20
def Developer : AccessLevel := 30
def Maintainer : AccessLevel := 40

structure AssignmentConfig where
  Course : String
  Name : String
  Path : String
  Per : Per
  Description : String
  ContainerRegistry : Bool
  AccessLevel : AccessLevel
  Students : List String
  Groups : List Group
  Startercode : Option Startercode
  deriving DecidableEq, Repr

/-! ## Operations -/

def assignmentPath (store : Store) (course assignment : String) : String :=
  let path := store.GetString (course ++ ".coursepath")
  let semesterpath := store.GetString (course ++ ".semesterpath")
  let path := if semesterpath.length > 0 then path ++ ("/" ++ semesterpath) else path
  let assignmentpath := path
  let group := store.GetString (course ++ "." ++ assignment ++ ".assignmentpath")
  if group.length > 0 then assignmentpath ++ ("/" ++ group) else assignmentpath

def per (store : Store) (assignmentKey : String) : Per :=
  if store.GetString (assignmentKey ++ ".per") = "group" then PerGroup else PerStudent

def description (store : Store) (assignmentKey : String) : String :=
  let description := "generated by glabs"
  let desc := store.GetString (assignmentKey ++ ".description")
  if desc ≠ "" then desc else description

def accessLevel (store : Store) (assignmentKey : String) : AccessLevel :=
  let accesslevelIdentifier := store.GetString (assignmentKey ++ ".accesslevel")
  if accesslevelIdentifier = "guest" then Guest
  else if accesslevelIdentifier = "reporter" then Reporter
  else if accesslevelIdentifier = "maintainer" then Maintainer
  else Developer

/-- The inner loop of `students`: one pass over the roster for one filter entry. -/
def studentsInner (onlyStudent : String) (students : List String)
    (onlyForStudents : List String) : List String :=
  students.foldl
    (fun acc student => if onlyStudent = student then acc ++ [onlyStudent] else acc)
    onlyForStudents

/-- The roster of a course, restricted by the filter when one is given: the
outer loop runs over the filter, the inner loop over the roster. -/
def students (per : Per) (store : Store) (course : String)
    (onlyForStudentsOrGroups : List String) : List String :=
  if per = PerGroup then []
  else
    let students := store.GetStringSlice (course ++ ".students")
    if onlyForStudentsOrGroups.length > 0 then
      onlyForStudentsOrGroups.foldl
        (fun acc onlyStudent => studentsInner onlyStudent students acc) []
    else students

/-- The inner loop of `groups`: one `range` over the group map for one filter
entry, visiting the entries in the order `visited`. -/
def groupsInner (onlyGroup : String) (visited : List (String × List String))
    (onlyTheseGroups : GoMap (List String)) : GoMap (List String) :=
  visited.foldl
    (fun acc e => if onlyGroup = e.1 then acc.set e.1 e.2 else acc)
    onlyTheseGroups

/-- The outer loop of `groups` over the filter; `i` counts the executions of
`range` over the group map. -/
def groupsOuter (ρ : RangeOrder (List String)) (groupsMap : GoMap (List String)) :
    Nat → List String → GoMap (List String) → GoMap (List String)
  | _, [], onlyTheseGroups => onlyTheseGroups
  | i, onlyGroup :: rest, onlyTheseGroups =>
    groupsOuter ρ groupsMap (i + 1) rest
      (groupsInner onlyGroup (ρ.visit i groupsMap.entries) onlyTheseGroups)

/-- The groups of a course, restricted by the filter when one is given.  The
final `range` over the (possibly filtered) map is the execution of `range`
that comes after the one per filter entry. -/
def groups (ρ : RangeOrder (List String)) (per : Per) (store : Store) (course : String)
    (onlyForStudentsOrGroups : List String) : List Group :=
  if per = PerStudent then []
  else
    let groupsMap := store.GetStringMapStringSlice (course ++ ".groups")
    let groupsMap :=
      if onlyForStudentsOrGroups.length > 0 then
        groupsOuter ρ groupsMap 0 onlyForStudentsOrGroups GoMap.empty
      else groupsMap
    (ρ.visit onlyForStudentsOrGroups.length groupsMap.entries).map
      (fun e => { GroupName := e.1, Members := e.2 })

/-- The startercode section of an assignment: `none` for an empty mapping, the
fatal condition for a mapping without `url`, the settings otherwise. -/
def startercode (store : Store) (assignmentKey : String) : Except String (Option Startercode) :=
  let startercodeMap := store.GetStringMapString (assignmentKey ++ ".startercode")
  if startercodeMap.len = 0 then .ok none
  else
    match startercodeMap.get? "url" with
    | none => .error "startercode provided without url"
    | some url =>
      let fB := store.GetString (assignmentKey ++ ".startercode.fromBranch")
      let fromBranch := if fB.length > 0 then fB else "master"
      let tB := store.GetString (assignmentKey ++ ".startercode.toBranch")
      let toBranch := if tB.length > 0 then tB else "master"
      .ok (some
        { URL := url
          FromBranch := fromBranch
          ToBranch := toBranch
          ProtectToBranch := store.GetBool (assignmentKey ++ ".startercode.protectToBranch") })

/-- The entry point.  The fields of the result are computed in the order of
the struct literal; `startercode`, the last one, is the only one that can end
the process, and the others only read the store, so its outcome is inspected
first and the record is built from the remaining values. -/
def GetAssignmentConfig (ρ : RangeOrder (List String)) (store : Store)
    (course assignment : String) (onlyForStudentsOrGroups : List String) :
    Except String AssignmentConfig :=
  if !store.IsSet course then .error "configuration for course not found"
  else if !store.IsSet (course ++ "." ++ assignment) then
    .error "configuration for assignment not found"
  else
    let assignmentKey := course ++ "." ++ assignment
    let per := per store assignmentKey
    match startercode store assignmentKey with
    | .error msg => .error msg
    | .ok sc =>
      .ok
        { Course := course
          Name := assignment
          Path := assignmentPath store course assignment
          Per := per
          Description := description store assignmentKey
          ContainerRegistry := store.GetBool (assignmentKey ++ ".containerRegistry")
          AccessLevel := accessLevel store assignmentKey
          Students := students per store course onlyForStudentsOrGroups
          Groups := groups ρ per store course onlyForStudentsOrGroups
          Startercode := sc }

/-- The map that `groups` ranges over in the end: the filtered map when a filter
is given, the stored map otherwise. -/
def keptGroups (ρ : RangeOrder (List String)) (store : Store) (course : String)
    (only : List String) : GoMap (List String) :=
  if only.length > 0 then
    groupsOuter ρ (store.GetStringMapStringSlice (course ++ ".groups")) 0 only GoMap.empty
  else store.GetStringMapStringSlice (course ++ ".groups")

/-! ## Fixture stores -/

/-- The store in which nothing is set. -/
def emptyStore : Store where
  IsSet := fun _ => false
  GetString := fun _ => ""
  GetBool := fun _ => false
  GetStringSlice := fun _ => []
  GetStringMapString := fun _ => GoMap.empty
  GetStringMapStringSlice := fun _ => GoMap.empty

/-- A course `cs1` with a roster, two groups and five assignments:
`hw1` is per group with access level `reporter`; `hw2` has startercode with a
`url` and a `toBranch`; `hw3` has startercode with a `toBranch` only; `hw4`
sets nothing but its own key; `hw5` has startercode with a `url` only. -/
def demoStore : Store where
  IsSet := fun k =>
    k = "cs1" || k = "cs1.hw1" || k = "cs1.hw2" || k = "cs1.hw3" || k = "cs1.hw4" ||
      k = "cs1.hw5"
  GetString := fun k =>
    if k = "cs1.coursepath" then "repo"
    else if k = "cs1.hw1.per" then "group"
    else if k = "cs1.hw1.accesslevel" then "reporter"
    else if k = "cs1.hw2.startercode.toBranch" then "dev"
    else if k = "cs1.hw3.startercode.toBranch" then "dev"
    else ""
  GetBool := fun _ => false
  GetStringSlice := fun k => if k = "cs1.students" then ["a", "b", "c"] else []
  GetStringMapString := fun k =>
    if k = "cs1.hw2.startercode" then
      ⟨[("url", "git@host:starter.git"), ("tobranch", "dev")], by decide⟩
    else if k = "cs1.hw3.startercode" then ⟨[("tobranch", "dev")], by decide⟩
    else if k = "cs1.hw5.startercode" then ⟨[("url", "git@host:plain.git")], by decide⟩
    else GoMap.empty
  GetStringMapStringSlice := fun k =>
    if k = "cs1.groups" then ⟨[("g1", ["a", "b"]), ("g2", ["c"])], by decide⟩
    else GoMap.empty

/-- A course `cs2` that is set but has neither roster nor groups, with one
assignment `hw1` that sets nothing but its own key. -/
def bareStore : Store where
  IsSet := fun k => k = "cs2" || k = "cs2.hw1"
  GetString := fun _ => ""
  GetBool := fun _ => false
  GetStringSlice := fun _ => []
  GetStringMapString := fun _ => GoMap.empty
  GetStringMapStringSlice := fun _ => GoMap.empty

/-- The store of the end-to-end example: course `cs1` with assignment `hw1`,
`per` set to `group`, access level `reporter`, and the groups `g1` with members
`a, b` and `g2` with member `c`. -/
def exampleStore : Store where
  IsSet := fun k => k = "cs1" || k = "cs1.hw1"
  GetString := fun k =>
    if k = "cs1.hw1.per" then "group"
    else if k = "cs1.hw1.accesslevel" then "reporter"
    else ""
  GetBool := fun _ => false
  GetStringSlice := fun _ => []
  GetStringMapString := fun _ => GoMap.empty
  GetStringMapStringSlice := fun k =>
    if k = "cs1.groups" then ⟨[("g1", ["a", "b"]), ("g2", ["c"])], by decide⟩
    else GoMap.empty

/-- Two courses for path construction: `cs1` has coursepath `repo`, no
semesterpath, and assignment `hw1` with assignmentpath `hw1dir`; `cs3` has
coursepath `repo`, semesterpath `f24`, and assignment `hw1` without
assignmentpath. -/
def pathStore : Store where
  IsSet := fun k => k = "cs1" || k = "cs1.hw1" || k = "cs3" || k = "cs3.hw1"
  GetString := fun k =>
    if k = "cs1.coursepath" then "repo"
    else if k = "cs1.hw1.assignmentpath" then "hw1dir"
    else if k = "cs3.coursepath" then "repo"
    else if k = "cs3.semesterpath" then "f24"
    else ""
  GetBool := fun _ => false
  GetStringSlice := fun _ => []
  GetStringMapString := fun _ => GoMap.empty
  GetStringMapStringSlice := fun _ => GoMap.empty

/-- A course `cs4` whose assignment `hw1` has a startercode section with the
key `url` present and mapped to the empty string. -/
def emptyUrlStore : Store where
  IsSet := fun k => k = "cs4" || k = "cs4.hw1"
  GetString := fun _ => ""
  GetBool := fun _ => false
  GetStringSlice := fun _ => []
  GetStringMapString := fun k =>
    if k = "cs4.hw1.startercode" then ⟨[("url", "")], by decide⟩ else GoMap.empty
  GetStringMapStringSlice := fun _ => GoMap.empty

/-- A course `cs5` whose assignment `hw1` has the description `week one` and
whose assignment `hw2` has none. -/
def describedStore : Store where
  IsSet := fun k => k = "cs5" || k = "cs5.hw1" || k = "cs5.hw2"
  GetString := fun k => if k = "cs5.hw1.description" then "week one" else ""
  GetBool := fun _ => false
  GetStringSlice := fun _ => []
  GetStringMapString := fun _ => GoMap.empty
  GetStringMapStringSlice := fun _ => GoMap.empty

/-- A course `cs6` whose roster lists the id `a` twice. -/
def repeatedStore : Store where
  IsSet := fun k => k = "cs6" || k = "cs6.hw1"
  GetString := fun _ => ""
  GetBool := fun _ => false
  GetStringSlice := fun k => if k = "cs6.students" then ["a", "b", "a"] else []
  GetStringMapString := fun _ => GoMap.empty
  GetStringMapStringSlice := fun _ => GoMap.empty

/-! ## Lemmas on maps -/

theorem lookup_eq_some_iff_mem {V : Type} (l : List (String × V))
    (nd : (l.map Prod.fst).Nodup) (k : String) (v : V) :
    l.lookup k = some v ↔ (k, v) ∈ l := by
  induction l with
  | nil => simp
  | cons e t ih =>
    obtain ⟨a, b⟩ := e
    simp only [List.map_cons, List.nodup_cons, List.mem_map, Prod.exists, exists_and_right,
      exists_eq_right, not_exists] at nd
    by_cases h : k = a
    · subst h
      simp only [List.lookup_cons, beq_self_eq_true, Option.some.injEq, List.mem_cons,
        Prod.mk.injEq, true_and]
      constructor
      · intro hb
        exact Or.inl hb.symm
      · intro hb
        rcases hb with hb | hb
        · exact hb.symm
        · exact absurd hb (nd.1 v)
    · have hbeq : (k == a) = false := by simpa using h
      simp only [List.lookup_cons, hbeq, ih nd.2, List.mem_cons, Prod.mk.injEq, h, false_and,
        false_or]

theorem lookup_perm {V : Type} {l₁ l₂ : List (String × V)} (hp : l₁.Perm l₂)
    (nd : (l₂.map Prod.fst).Nodup) (k : String) : l₁.lookup k = l₂.lookup k := by
  have nd1 : (l₁.map Prod.fst).Nodup := ((hp.map Prod.fst).nodup_iff).2 nd
  apply Option.ext
  intro v
  simp only [Option.mem_def]
  rw [lookup_eq_some_iff_mem l₁ nd1, lookup_eq_some_iff_mem l₂ nd, hp.mem_iff]

theorem lookup_setEntries {V : Type} (l : List (String × V)) (k : String) (v : V) (q : String) :
    (setEntries l k v).lookup q = if q = k then some v else l.lookup q := by
  induction l with
  | nil =>
    by_cases h : q = k
    · simp [setEntries, h]
    · have hbeq : (q == k) = false := by simpa using h
      simp [setEntries, h, List.lookup_cons, hbeq]
  | cons e t ih =>
    obtain ⟨a, b⟩ := e
    by_cases hak : a = k
    · subst hak
      by_cases h : q = a
      · simp [setEntries, h]
      · have hbeq : (q == a) = false := by simpa using h
        simp [setEntries, h, List.lookup_cons, hbeq]
    · by_cases hqa : q = a
      · subst hqa
        simp [setEntries, hak, List.lookup_cons]
      · have hbeq : (q == a) = false := by simpa using hqa
        simp only [setEntries, hak, if_false, List.lookup_cons, hbeq, ih]

theorem GoMap.get?_set {V : Type} (m : GoMap V) (k : String) (v : V) (q : String) :
    (m.set k v).get? q = if q = k then some v else m.get? q :=
  lookup_setEntries m.entries k v q

theorem GoMap.get?_empty {V : Type} (q : String) : (GoMap.empty : GoMap V).get? q = none := rfl

theorem GoMap.get?_eq_some_iff {V : Type} (m : GoMap V) (k : String) (v : V) :
    m.get? k = some v ↔ (k, v) ∈ m.entries :=
  lookup_eq_some_iff_mem m.entries m.nodup k v

theorem GoMap.entries_eq_nil_of_get? {V : Type} (m : GoMap V) (h : ∀ k, m.get? k = none) :
    m.entries = [] := by
  cases hm : m.entries with
  | nil => rfl
  | cons e t =>
    have h1 : m.get? e.1 = some e.2 := (m.get?_eq_some_iff e.1 e.2).2 (by simp [hm])
    rw [h e.1] at h1
    exact absurd h1 (by simp)

/-! ## Lemmas on the loops of `students` -/

theorem studentsInner_eq (onlyStudent : String) (roster acc : List String) :
    studentsInner onlyStudent roster acc
      = acc ++ List.replicate (roster.count onlyStudent) onlyStudent := by
  induction roster generalizing acc with
  | nil => simp [studentsInner]
  | cons a t ih =>
    have ih2 := ih
    simp only [studentsInner] at ih2 ⊢
    by_cases h : onlyStudent = a
    · subst h
      simp only [List.foldl_cons, if_true, ih2, List.count_cons_self, List.append_assoc,
        List.singleton_append, List.replicate_succ]
    · have h2 : ¬ a = onlyStudent := fun h3 => h h3.symm
      simp [List.foldl_cons, h, ih2, List.count_cons, h2]

theorem studentsOuter_eq (roster : List String) (only acc : List String) :
    only.foldl (fun acc onlyStudent => studentsInner onlyStudent roster acc) acc
      = acc ++ only.flatMap (fun f => List.replicate (roster.count f) f) := by
  induction only generalizing acc with
  | nil => simp
  | cons f t ih =>
    rw [List.foldl_cons, ih, studentsInner_eq, List.flatMap_cons, List.append_assoc]

theorem students_eq_flatMap (store : Store) (course : String) (only : List String)
    (hne : only ≠ []) :
    students PerStudent store course only
      = only.flatMap (fun f =>
          List.replicate ((store.GetStringSlice (course ++ ".students")).count f) f) := by
  have hs : PerStudent ≠ PerGroup := by decide
  have hlen : only.length > 0 := List.length_pos.2 hne
  simp only [students, hs, if_false, hlen, if_true, studentsOuter_eq, List.nil_append]

theorem count_flatMap_replicate (roster only : List String) (id : String) :
    (only.flatMap (fun f => List.replicate (roster.count f) f)).count id
      = only.count id * roster.count id := by
  induction only with
  | nil => simp
  | cons f t ih =>
    rw [List.flatMap_cons, List.count_append, ih, List.count_replicate, List.count_cons]
    by_cases h : f = id
    · subst h
      simp only [beq_self_eq_true, if_true]
      ring
    · have hbeq : (f == id) = false := by simpa using h
      simp [hbeq]

theorem flatMap_replicate_of_nodup (roster only : List String) (hnd : roster.Nodup) :
    only.flatMap (fun f => List.replicate (roster.count f) f)
      = only.filter (fun f => decide (f ∈ roster)) := by
  induction only with
  | nil => simp
  | cons f t ih =>
    rw [List.flatMap_cons, ih, List.filter_cons]
    by_cases h : f ∈ roster
    · simp [h, List.count_eq_one_of_mem hnd h]
    · simp [h, List.count_eq_zero_of_not_mem h]

/-! ## Lemmas on the loops of `groups` -/

theorem groupsInner_get? (onlyGroup : String) (visited : List (String × List String))
    (nd : (visited.map Prod.fst).Nodup) (acc : GoMap (List String)) (q : String) :
    (groupsInner onlyGroup visited acc).get? q
      = if q = onlyGroup then (visited.lookup q).or (acc.get? q) else acc.get? q := by
  induction visited generalizing acc with
  | nil => simp [groupsInner]
  | cons e t ih =>
    obtain ⟨a, b⟩ := e
    simp only [List.map_cons, List.nodup_cons] at nd
    have ih2 := ih nd.2
    simp only [groupsInner] at ih2 ⊢
    simp only [List.foldl_cons]
    rw [ih2]
    by_cases hq : q = onlyGroup
    · subst hq
      by_cases ha : q = a
      · subst ha
        have hnone : t.lookup q = none := by
          cases hl : t.lookup q with
          | none => rfl
          | some v =>
            have hmem := (lookup_eq_some_iff_mem t nd.2 q v).1 hl
            exact absurd (List.mem_map_of_mem Prod.fst hmem) nd.1
        simp [hnone, GoMap.get?_set, List.lookup_cons]
      · have hbeq : (q == a) = false := by simpa using ha
        simp [ha, List.lookup_cons, hbeq]
    · by_cases ha : onlyGroup = a
      · subst ha
        simp [hq, GoMap.get?_set]
      · simp [hq, ha]

theorem groupsOuter_get? (ρ : RangeOrder (List String)) (groupsMap : GoMap (List String))
    (i : Nat) (only : List String) (acc : GoMap (List String)) (q : String) :
    (groupsOuter ρ groupsMap i only acc).get? q
      = if q ∈ only then (groupsMap.get? q).or (acc.get? q) else acc.get? q := by
  induction only generalizing i acc with
  | nil => simp [groupsOuter]
  | cons g t ih =>
    have hp := ρ.perm i groupsMap.entries
    have nd : ((ρ.visit i groupsMap.entries).map Prod.fst).Nodup :=
      ((hp.map Prod.fst).nodup_iff).2 groupsMap.nodup
    have hl : (ρ.visit i groupsMap.entries).lookup q = groupsMap.get? q :=
      lookup_perm hp groupsMap.nodup q
    simp only [groupsOuter]
    rw [ih, groupsInner_get? g _ nd, hl]
    by_cases hq : q = g
    · subst hq
      by_cases ht : q ∈ t
      · simp [ht, ← Option.or_assoc]
      · simp [ht]
    · by_cases ht : q ∈ t
      · simp [ht, hq]
      · simp [ht, hq]

theorem groups_eq (ρ : RangeOrder (List String)) (per : Per) (store : Store) (course : String)
    (only : List String) (h : per ≠ PerStudent) :
    groups ρ per store course only
      = (ρ.visit only.length (keptGroups ρ store course only).entries).map
          (fun e => { GroupName := e.1, Members := e.2 }) := by
  simp only [groups, h, if_false, keptGroups]

theorem keptGroups_get? (ρ : RangeOrder (List String)) (store : Store) (course : String)
    (only : List String) (q : String) :
    (keptGroups ρ store course only).get? q
      = if only = [] ∨ q ∈ only then
          (store.GetStringMapStringSlice (course ++ ".groups")).get? q
        else none := by
  cases only with
  | nil => simp [keptGroups]
  | cons g t =>
    simp only [keptGroups, List.length_cons, Nat.succ_pos, gt_iff_lt, if_true,
      groupsOuter_get?, GoMap.get?_empty, Option.or_none, reduceCtorEq, false_or]

theorem mem_groups_iff (ρ : RangeOrder (List String)) (per : Per) (store : Store)
    (course : String) (only : List String) (h : per ≠ PerStudent) (n : String)
    (m : List String) :
    ({ GroupName := n, Members := m } : Group) ∈ groups ρ per store course only
      ↔ (keptGroups ρ store course only).get? n = some m := by
  rw [groups_eq ρ per store course only h, GoMap.get?_eq_some_iff]
  constructor
  · intro hm
    obtain ⟨e, he, heq⟩ := List.mem_map.1 hm
    have he2 := (ρ.perm _ _).mem_iff.1 he
    obtain ⟨a, b⟩ := e
    simp only [Group.mk.injEq] at heq
    rw [← heq.1, ← heq.2]
    exact he2
  · intro hm
    exact List.mem_map.2 ⟨(n, m), (ρ.perm _ _).mem_iff.2 hm, rfl⟩

/-! ## Lemmas on participants -/

theorem per_cases (store : Store) (assignmentKey : String) :
    per store assignmentKey = PerStudent ∨ per store assignmentKey = PerGroup := by
  unfold per
  split
  · exact Or.inr rfl
  · exact Or.inl rfl

theorem PerGroup_ne_PerStudent : PerGroup ≠ PerStudent := by decide

theorem mem_students_iff (per : Per) (store : Store) (course : String) (only : List String)
    (hp : per ≠ PerGroup) (hne : only ≠ []) (id : String) :
    id ∈ students per store course only
      ↔ id ∈ only ∧ id ∈ store.GetStringSlice (course ++ ".students") := by
  have hlen : only.length > 0 := List.length_pos.2 hne
  simp only [students, hp, if_false, hlen, if_true, studentsOuter_eq, List.nil_append,
    List.mem_flatMap, List.mem_replicate]
  constructor
  · rintro ⟨f, hf, hc, rfl⟩
    exact ⟨hf, List.count_pos_iff.1 (Nat.pos_of_ne_zero hc)⟩
  · rintro ⟨h1, h2⟩
    exact ⟨id, h1, Nat.pos_iff_ne_zero.1 (List.count_pos_iff.2 h2), rfl⟩

theorem students_ne_nil_iff (per : Per) (store : Store) (course : String) (only : List String) :
    students per store course only ≠ [] ↔
      per ≠ PerGroup ∧
        ((only = [] ∧ store.GetStringSlice (course ++ ".students") ≠ []) ∨
          ∃ s ∈ only, s ∈ store.GetStringSlice (course ++ ".students")) := by
  by_cases hp : per = PerGroup
  · simp [students, hp]
  · by_cases hne : only = []
    · subst hne
      simp [students, hp]
    · constructor
      · intro h
        obtain ⟨x, hx⟩ := List.exists_mem_of_ne_nil _ h
        have hx2 := (mem_students_iff per store course only hp hne x).1 hx
        exact ⟨hp, Or.inr ⟨x, hx2.1, hx2.2⟩⟩
      · rintro ⟨_, h | ⟨x, hx1, hx2⟩⟩
        · exact absurd h.1 hne
        · exact List.ne_nil_of_mem ((mem_students_iff per store course only hp hne x).2 ⟨hx1, hx2⟩)

theorem groups_ne_nil_iff (ρ : RangeOrder (List String)) (per : Per) (store : Store)
    (course : String) (only : List String) :
    groups ρ per store course only ≠ [] ↔
      per ≠ PerStudent ∧
        ((only = [] ∧ (store.GetStringMapStringSlice (course ++ ".groups")).entries ≠ []) ∨
          ∃ g ∈ only, ∃ m,
            (store.GetStringMapStringSlice (course ++ ".groups")).get? g = some m) := by
  by_cases hp : per = PerStudent
  · simp [groups, hp]
  · constructor
    · intro h
      refine ⟨hp, ?_⟩
      obtain ⟨x, hx⟩ := List.exists_mem_of_ne_nil _ h
      have hx2 := (mem_groups_iff ρ per store course only hp x.GroupName x.Members).1 hx
      rw [keptGroups_get?] at hx2
      by_cases hne : only = []
      · left
        refine ⟨hne, ?_⟩
        simp only [hne, true_or, if_true] at hx2
        exact List.ne_nil_of_mem ((GoMap.get?_eq_some_iff _ _ _).1 hx2)
      · right
        simp only [hne, false_or] at hx2
        split at hx2
        · rename_i hmem
          exact ⟨x.GroupName, hmem, x.Members, hx2⟩
        · exact absurd hx2 (by simp)
    · rintro ⟨_, h | ⟨g, hg, m, hm⟩⟩
      · obtain ⟨e, he⟩ := List.exists_mem_of_ne_nil _ h.2
        have h1 : (keptGroups ρ store course only).get? e.1 = some e.2 := by
          rw [keptGroups_get?]
          simp only [h.1, true_or, if_true]
          exact (GoMap.get?_eq_some_iff _ _ _).2 he
        exact List.ne_nil_of_mem ((mem_groups_iff ρ per store course only hp e.1 e.2).2 h1)
      · have h1 : (keptGroups ρ store course only).get? g = some m := by
          rw [keptGroups_get?]
          simp only [hg, or_true, if_true]
          exact hm
        exact List.ne_nil_of_mem ((mem_groups_iff ρ per store course only hp g m).2 h1)

theorem GetAssignmentConfig_ok (ρ : RangeOrder (List String)) (store : Store)
    (course assignment : String) (only : List String) (cfg : AssignmentConfig)
    (h : GetAssignmentConfig ρ store course assignment only = .ok cfg) :
    cfg.Per = per store (course ++ "." ++ assignment) ∧
    cfg.Students = students (per store (course ++ "." ++ assignment)) store course only ∧
    cfg.Groups = groups ρ (per store (course ++ "." ++ assignment)) store course only := by
  unfold GetAssignmentConfig at h
  split at h
  · exact absurd h (by simp)
  · split at h
    · exact absurd h (by simp)
    · simp only at h
      split at h
      · exact absurd h (by simp)
      · simp only [Except.ok.injEq] at h
        subst h
        exact ⟨rfl, rfl, rfl⟩

theorem groups_names_nodup (ρ : RangeOrder (List String)) (per : Per) (store : Store)
    (course : String) (only : List String) :
    ((groups ρ per store course only).map Group.GroupName).Nodup := by
  by_cases hp : per = PerStudent
  · simp [groups, hp]
  · rw [groups_eq ρ per store course only hp, List.map_map]
    have hfun : (Group.GroupName ∘ fun e : String × List String =>
        ({ GroupName := e.1, Members := e.2 } : Group)) = Prod.fst := rfl
    rw [hfun]
    exact (((ρ.perm only.length (keptGroups ρ store course only).entries).map
      Prod.fst).nodup_iff).2 (keptGroups ρ store course only).nodup

theorem groups_nodup (ρ : RangeOrder (List String)) (per : Per) (store : Store)
    (course : String) (only : List String) : (groups ρ per store course only).Nodup :=
  List.Nodup.of_map Group.GroupName (groups_names_nodup ρ per store course only)

theorem keptGroups_entries_subset (ρ : RangeOrder (List String)) (store : Store)
    (course : String) (only : List String) :
    (keptGroups ρ store course only).entries
      ⊆ (store.GetStringMapStringSlice (course ++ ".groups")).entries := by
  intro e he
  have h1 : (keptGroups ρ store course only).get? e.1 = some e.2 :=
    (GoMap.get?_eq_some_iff _ e.1 e.2).2 he
  rw [keptGroups_get?] at h1
  split at h1
  · exact (GoMap.get?_eq_some_iff _ e.1 e.2).1 h1
  · exact absurd h1 (by simp)

theorem groups_length_le (ρ : RangeOrder (List String)) (per : Per) (store : Store)
    (course : String) (only : List String) :
    (groups ρ per store course only).length
      ≤ (store.GetStringMapStringSlice (course ++ ".groups")).len := by
  by_cases hp : per = PerStudent
  · simp [groups, hp]
  · rw [groups_eq ρ per store course only hp, List.length_map, (ρ.perm _ _).length_eq]
    exact (List.subperm_of_subset
      (List.Nodup.of_map Prod.fst (keptGroups ρ store course only).nodup)
      (keptGroups_entries_subset ρ store course only)).length_le

theorem GetAssignmentConfig_description (ρ : RangeOrder (List String)) (store : Store)
    (course assignment : String) (only : List String) (cfg : AssignmentConfig)
    (h : GetAssignmentConfig ρ store course assignment only = .ok cfg) :
    cfg.Description = description store (course ++ "." ++ assignment) := by
  unfold GetAssignmentConfig at h
  split at h
  · exact absurd h (by simp)
  · split at h
    · exact absurd h (by simp)
    · simp only at h
      split at h
      · exact absurd h (by simp)
      · simp only [Except.ok.injEq] at h
        subst h
        rfl

/-! ## Lemmas on startercode -/

theorem startercode_some (store : Store) (assignmentKey : String) (sc : Startercode)
    (h : startercode store assignmentKey = .ok (some sc)) :
    (store.GetStringMapString (assignmentKey ++ ".startercode")).len ≠ 0 ∧
    (store.GetStringMapString (assignmentKey ++ ".startercode")).get? "url" = some sc.URL := by
  unfold startercode at h
  simp only at h
  split at h
  · exact absurd h (by simp)
  · rename_i hlen
    refine ⟨hlen, ?_⟩
    split at h
    · exact absurd h (by simp)
    · rename_i url hurl
      simp only [Except.ok.injEq, Option.some.injEq] at h
      rw [hurl, ← h]

theorem startercode_ok_of (store : Store) (assignmentKey : String)
    (h : (store.GetStringMapString (assignmentKey ++ ".startercode")).len = 0 ∨
      ∃ url, (store.GetStringMapString (assignmentKey ++ ".startercode")).get? "url"
        = some url) :
    ∃ sc, startercode store assignmentKey = .ok sc := by
  by_cases hlen : (store.GetStringMapString (assignmentKey ++ ".startercode")).len = 0
  · exact ⟨none, by simp [startercode, hlen]⟩
  · rcases h with h | ⟨url, hurl⟩
    · exact absurd h hlen
    · refine ⟨some
          { URL := url
            FromBranch :=
              if (store.GetString (assignmentKey ++ ".startercode.fromBranch")).length > 0 then
                store.GetString (assignmentKey ++ ".startercode.fromBranch")
              else "master"
            ToBranch :=
              if (store.GetString (assignmentKey ++ ".startercode.toBranch")).length > 0 then
                store.GetString (assignmentKey ++ ".startercode.toBranch")
              else "master"
            ProtectToBranch :=
              store.GetBool (assignmentKey ++ ".startercode.protectToBranch") }, ?_⟩
      simp only [startercode, hlen, if_false, hurl]

/-! ## Lemmas on strings -/

theorem length_pos_iff_ne_empty (s : String) : s.length > 0 ↔ s ≠ "" := by
  rcases s with ⟨l⟩
  cases l with
  | nil => exact ⟨fun h => absurd h (by decide), fun h => absurd rfl h⟩
  | cons c t =>
    refine ⟨fun _ h => ?_, fun _ => by simp [String.length]⟩
    have h2 := congrArg String.data h
    exact absurd h2 (by simp)

/-! ## Fatal preconditions of the entry point -/

/-- C1: if the course key is not set, `GetAssignmentConfig` ends in the fatal
condition "configuration for course not found", whatever the assignment is; if
the course key is set but `course + "." + assignment` is not, it ends in
"configuration for assignment not found"; in both cases no `AssignmentConfig`
is produced. -/
theorem C1_missing_course_or_assignment_is_fatal (ρ : RangeOrder (List String)) (store : Store)
    (course assignment : String) (only : List String) :
    (store.IsSet course = false →
      GetAssignmentConfig ρ store course assignment only
        = .error "configuration for course not found") ∧
    (store.IsSet course = true → store.IsSet (course ++ "." ++ assignment) = false →
      GetAssignmentConfig ρ store course assignment only
        = .error "configuration for assignment not found") ∧
    (store.IsSet course = false ∨ store.IsSet (course ++ "." ++ assignment) = false →
      ∀ cfg, GetAssignmentConfig ρ store course assignment only ≠ .ok cfg) := by
  refine ⟨?_, ?_, ?_⟩
  · intro h
    simp [GetAssignmentConfig, h]
  · intro h1 h2
    simp [GetAssignmentConfig, h1, h2]
  · intro h cfg
    rcases h with h | h
    · simp [GetAssignmentConfig, h]
    · cases hc : store.IsSet course <;> simp [GetAssignmentConfig, h, hc]

theorem C1_missing_course_or_assignment_is_fatal_witness :
    GetAssignmentConfig (RangeOrder.listed _) emptyStore "cs1" "hw1" ["a"]
        = .error "configuration for course not found" ∧
    GetAssignmentConfig (RangeOrder.listed _) demoStore "cs1" "hw9" []
        = .error "configuration for assignment not found" ∧
    (∀ cfg, GetAssignmentConfig (RangeOrder.listed _) demoStore "cs1" "hw9" [] ≠ .ok cfg) :=
  ⟨(C1_missing_course_or_assignment_is_fatal (RangeOrder.listed _) emptyStore
      "cs1" "hw1" ["a"]).1 (by decide),
   (C1_missing_course_or_assignment_is_fatal (RangeOrder.listed _) demoStore
      "cs1" "hw9" []).2.1 (by decide) (by decide),
   (C1_missing_course_or_assignment_is_fatal (RangeOrder.listed _) demoStore
      "cs1" "hw9" []).2.2 (Or.inr (by decide))⟩

/-! ## Startercode without `url` -/

/-- C2: when the startercode mapping of an assignment key is non-empty but has
no `url` key, `startercode` ends in the fatal condition "startercode provided
without url" and produces no `Startercode` value. -/
theorem C2_startercode_without_url_is_fatal (store : Store) (assignmentKey : String)
    (hne : (store.GetStringMapString (assignmentKey ++ ".startercode")).len ≠ 0)
    (hurl : (store.GetStringMapString (assignmentKey ++ ".startercode")).get? "url" = none) :
    startercode store assignmentKey = .error "startercode provided without url" ∧
    ∀ r, startercode store assignmentKey ≠ .ok r := by
  have h : startercode store assignmentKey = .error "startercode provided without url" := by
    simp [startercode, hne, hurl]
  exact ⟨h, fun r => by simp [h]⟩

theorem C2_startercode_without_url_is_fatal_witness :
    (demoStore.GetStringMapString ("cs1.hw3" ++ ".startercode")).entries = [("tobranch", "dev")] ∧
    startercode demoStore "cs1.hw3" = .error "startercode provided without url" ∧
    ∀ r, startercode demoStore "cs1.hw3" ≠ .ok r :=
  ⟨by decide, C2_startercode_without_url_is_fatal demoStore "cs1.hw3" (by decide) (by decide)⟩

/-! ## Mode and access level -/

/-- C3: `per` returns `PerGroup` exactly when the string stored at
`<assignmentKey>.per` is "group"; for every other stored value, in particular
"Group", "GROUPS" and the empty string of an unset key, it returns
`PerStudent`; it never returns `PerFailed`. -/
theorem C3_per_group_iff_exactly_group (store : Store) (assignmentKey : String) :
    (per store assignmentKey = PerGroup ↔ store.GetString (assignmentKey ++ ".per") = "group") ∧
    (store.GetString (assignmentKey ++ ".per") ≠ "group" →
      per store assignmentKey = PerStudent) ∧
    (store.GetString (assignmentKey ++ ".per") ∈ ["Group", "GROUPS", ""] →
      per store assignmentKey = PerStudent) ∧
    per store assignmentKey ≠ PerFailed := by
  have hgs : PerGroup ≠ PerStudent := by decide
  have hgf : PerGroup ≠ PerFailed := by decide
  have hsf : PerStudent ≠ PerFailed := by decide
  by_cases h : store.GetString (assignmentKey ++ ".per") = "group"
  · refine ⟨by simp [per, h], fun h2 => absurd h h2, ?_, by simp [per, h, hgf]⟩
    intro hm
    rw [h] at hm
    exact absurd hm (by decide)
  · refine ⟨by simp [per, h, hgs.symm], fun _ => by simp [per, h], fun _ => by simp [per, h],
      by simp [per, h, hsf]⟩

theorem C3_per_group_iff_exactly_group_witness :
    per demoStore "cs1.hw1" = PerGroup ∧ per demoStore "cs1.hw2" = PerStudent ∧
    per emptyStore "cs1.hw1" = PerStudent :=
  ⟨(C3_per_group_iff_exactly_group demoStore "cs1.hw1").1.2 (by decide),
   (C3_per_group_iff_exactly_group demoStore "cs1.hw2").2.1 (by decide),
   (C3_per_group_iff_exactly_group emptyStore "cs1.hw1").2.2.1 (by decide)⟩

/-- C4: `accessLevel` maps the stored role string "guest" to `Guest` (10),
"reporter" to `Reporter` (20), "developer" to `Developer` (30) and "maintainer"
to `Maintainer` (40), and every other string to `Developer` (30); the result is
always one of 10, 20, 30, 40. -/
theorem C4_accessLevel_table (store : Store) (assignmentKey : String) :
    (store.GetString (assignmentKey ++ ".accesslevel") = "guest" →
      accessLevel store assignmentKey = Guest ∧ Guest = 10) ∧
    (store.GetString (assignmentKey ++ ".accesslevel") = "reporter" →
      accessLevel store assignmentKey = Reporter ∧ Reporter = 20) ∧
    (store.GetString (assignmentKey ++ ".accesslevel") = "developer" →
      accessLevel store assignmentKey = Developer ∧ Developer = 30) ∧
    (store.GetString (assignmentKey ++ ".accesslevel") = "maintainer" →
      accessLevel store assignmentKey = Maintainer ∧ Maintainer = 40) ∧
    (store.GetString (assignmentKey ++ ".accesslevel") ∉ ["guest", "reporter", "maintainer"] →
      accessLevel store assignmentKey = Developer) ∧
    accessLevel store assignmentKey ∈ [(10 : Int), 20, 30, 40] := by
  refine ⟨?_, ?_, ?_, ?_, ?_, ?_⟩
  · intro h
    simp [accessLevel, h, Guest]
  · intro h
    simp [accessLevel, h, Reporter]
  · intro h
    simp [accessLevel, h, Developer]
  · intro h
    simp [accessLevel, h, Maintainer]
  · intro h
    simp only [List.mem_cons, List.mem_singleton, List.not_mem_nil, or_false, not_or] at h
    simp [accessLevel, h.1, h.2.1, h.2.2]
  · simp only [accessLevel]
    split_ifs <;> simp [Guest, Reporter, Maintainer, Developer]

theorem C4_accessLevel_table_witness :
    accessLevel demoStore "cs1.hw1" = Reporter ∧ accessLevel demoStore "cs1.hw2" = Developer :=
  ⟨((C4_accessLevel_table demoStore "cs1.hw1").2.1 (by decide)).1,
   (C4_accessLevel_table demoStore "cs1.hw2").2.2.2.2.1 (by decide)⟩

/-! ## Participants -/

/-- C5: `students` returns the empty list in `PerGroup` mode and `groups`
returns the empty list in `PerStudent` mode, whatever the roster, the group map
and the filter are; hence in every successful resolution the mode alone decides
which of `Students` and `Groups` may be populated, and they are never both
populated. -/
theorem C5_mode_gates_participants (ρ : RangeOrder (List String)) (store : Store)
    (course : String) (only : List String) :
    students PerGroup store course only = [] ∧
    groups ρ PerStudent store course only = [] ∧
    ∀ assignment cfg, GetAssignmentConfig ρ store course assignment only = .ok cfg →
      (cfg.Per = PerGroup → cfg.Students = []) ∧
      (cfg.Per = PerStudent → cfg.Groups = []) ∧
      (cfg.Per = PerGroup ∨ cfg.Per = PerStudent) ∧
      ¬ (cfg.Students ≠ [] ∧ cfg.Groups ≠ []) := by
  refine ⟨by simp [students], by simp [groups], ?_⟩
  intro assignment cfg h
  obtain ⟨hper, hs, hg⟩ := GetAssignmentConfig_ok ρ store course assignment only cfg h
  have hS : cfg.Per = PerGroup → cfg.Students = [] := by
    intro hp
    rw [hs, ← hper, hp]
    simp [students]
  have hG : cfg.Per = PerStudent → cfg.Groups = [] := by
    intro hp
    rw [hg, ← hper, hp]
    simp [groups]
  have hc : cfg.Per = PerGroup ∨ cfg.Per = PerStudent := by
    rw [hper]
    exact (per_cases store _).symm
  refine ⟨hS, hG, hc, ?_⟩
  rintro ⟨h1, h2⟩
  rcases hc with hp | hp
  · exact h1 (hS hp)
  · exact h2 (hG hp)

theorem C5_mode_gates_participants_witness :
    ∃ cfg, GetAssignmentConfig (RangeOrder.listed _) demoStore "cs1" "hw1" ["g1"] = .ok cfg ∧
      cfg.Per = PerGroup ∧ cfg.Students = [] ∧ cfg.Groups ≠ [] :=
  ⟨_, rfl, rfl,
    ((C5_mode_gates_participants (RangeOrder.listed _) demoStore "cs1" ["g1"]).2.2
      "hw1" _ rfl).1 rfl, by decide⟩

/-- C6, as stated, fails: a successful resolution can leave both `Students` and
`Groups` empty.  In `bareStore` the course has no roster, and in `demoStore`
the filter `zz` matches no student of the roster `a, b, c`; both resolutions
succeed in `PerStudent` mode with `Students` empty. -/
theorem C6_counterexample :
    (∃ cfg, GetAssignmentConfig (RangeOrder.listed _) bareStore "cs2" "hw1" [] = .ok cfg ∧
      cfg.Per = PerStudent ∧ cfg.Students = [] ∧ cfg.Groups = []) ∧
    (∃ cfg, GetAssignmentConfig (RangeOrder.listed _) demoStore "cs1" "hw4" ["zz"] = .ok cfg ∧
      cfg.Per = PerStudent ∧ cfg.Students = [] ∧ cfg.Groups = []) :=
  ⟨⟨_, rfl, rfl, rfl, rfl⟩, ⟨_, rfl, rfl, rfl, rfl⟩⟩

/-- C6, amended: in every successful resolution at most one of `Students` and
`Groups` is non-empty and a non-empty one matches the mode.  `Students` is
non-empty exactly when the mode is `PerStudent` and either the filter is empty
and the roster is non-empty, or some filter entry occurs in the roster.
`Groups` is non-empty exactly when the mode is `PerGroup` and either the filter
is empty and the group map is non-empty, or some filter entry names a group of
the map. -/
theorem C6_at_most_one_participant_list (ρ : RangeOrder (List String)) (store : Store)
    (course assignment : String) (only : List String) (cfg : AssignmentConfig)
    (h : GetAssignmentConfig ρ store course assignment only = .ok cfg) :
    ¬ (cfg.Students ≠ [] ∧ cfg.Groups ≠ []) ∧
    (cfg.Students ≠ [] ↔
      cfg.Per = PerStudent ∧
        ((only = [] ∧ store.GetStringSlice (course ++ ".students") ≠ []) ∨
          ∃ s ∈ only, s ∈ store.GetStringSlice (course ++ ".students"))) ∧
    (cfg.Groups ≠ [] ↔
      cfg.Per = PerGroup ∧
        ((only = [] ∧ (store.GetStringMapStringSlice (course ++ ".groups")).entries ≠ []) ∨
          ∃ g ∈ only, ∃ m,
            (store.GetStringMapStringSlice (course ++ ".groups")).get? g = some m)) := by
  obtain ⟨hper, hs, hg⟩ := GetAssignmentConfig_ok ρ store course assignment only cfg h
  have hS := students_ne_nil_iff cfg.Per store course only
  have hG := groups_ne_nil_iff ρ cfg.Per store course only
  rw [← hper] at hs hg
  rw [← hs] at hS
  rw [← hg] at hG
  have hc : cfg.Per = PerStudent ∨ cfg.Per = PerGroup := by
    rw [hper]
    exact per_cases store _
  have e1 : cfg.Per ≠ PerGroup ↔ cfg.Per = PerStudent := by
    rcases hc with hp | hp
    · simp [hp, PerGroup_ne_PerStudent.symm]
    · simp [hp, PerGroup_ne_PerStudent]
  have e2 : cfg.Per ≠ PerStudent ↔ cfg.Per = PerGroup := by
    rcases hc with hp | hp
    · simp [hp, PerGroup_ne_PerStudent.symm]
    · simp [hp, PerGroup_ne_PerStudent]
  rw [e1] at hS
  rw [e2] at hG
  refine ⟨?_, hS, hG⟩
  rintro ⟨h1, h2⟩
  have p1 := (hS.1 h1).1
  have p2 := (hG.1 h2).1
  rw [p1] at p2
  exact PerGroup_ne_PerStudent p2.symm

theorem C6_at_most_one_participant_list_witness :
    ∃ cfg, GetAssignmentConfig (RangeOrder.listed _) demoStore "cs1" "hw2" ["b", "zz"] = .ok cfg ∧
      cfg.Students ≠ [] ∧ cfg.Groups = [] ∧ ¬ (cfg.Students ≠ [] ∧ cfg.Groups ≠ []) :=
  ⟨_, rfl, by decide, rfl,
    (C6_at_most_one_participant_list (RangeOrder.listed _) demoStore "cs1" "hw2" ["b", "zz"]
      _ rfl).1⟩

/-- C7: with an empty filter nothing is filtered.  In `PerStudent` mode
`students` returns exactly the list stored at `<course>.students`; in
`PerGroup` mode `groups` returns, in some order, one `Group` per entry of the
map stored at `<course>.groups`, carrying that entry's name and member list,
and nothing else. -/
theorem C7_empty_filter_is_identity (ρ : RangeOrder (List String)) (store : Store)
    (course : String) :
    students PerStudent store course [] = store.GetStringSlice (course ++ ".students") ∧
    (groups ρ PerGroup store course []).Perm
      ((store.GetStringMapStringSlice (course ++ ".groups")).entries.map
        (fun e => { GroupName := e.1, Members := e.2 })) ∧
    (groups ρ PerGroup store course []).length
      = (store.GetStringMapStringSlice (course ++ ".groups")).len := by
  have hs : PerStudent ≠ PerGroup := PerGroup_ne_PerStudent.symm
  have hg : (groups ρ PerGroup store course []).Perm
      ((store.GetStringMapStringSlice (course ++ ".groups")).entries.map
        (fun e => { GroupName := e.1, Members := e.2 })) := by
    rw [groups_eq ρ PerGroup store course [] PerGroup_ne_PerStudent]
    simp only [keptGroups, List.length_nil, gt_iff_lt, Nat.lt_irrefl, if_false]
    exact (ρ.perm 0 _).map _
  refine ⟨by simp [students, hs], hg, ?_⟩
  rw [hg.length_eq, List.length_map, GoMap.len]

/-- C8: in `PerStudent` mode with a non-empty filter, an id occurs in the list
returned by `students` if and only if it occurs in both the filter and the
roster; a filter that shares no id with the roster yields the empty list. -/
theorem C8_students_filter_is_intersection (store : Store) (course : String)
    (only : List String) (hne : only ≠ []) :
    (∀ id, id ∈ students PerStudent store course only
      ↔ id ∈ only ∧ id ∈ store.GetStringSlice (course ++ ".students")) ∧
    ((∀ id ∈ only, id ∉ store.GetStringSlice (course ++ ".students")) →
      students PerStudent store course only = []) := by
  have hs : PerStudent ≠ PerGroup := PerGroup_ne_PerStudent.symm
  refine ⟨fun id => mem_students_iff PerStudent store course only hs hne id, ?_⟩
  intro h
  apply List.eq_nil_iff_forall_not_mem.2
  intro id hid
  have h2 := (mem_students_iff PerStudent store course only hs hne id).1 hid
  exact h id h2.1 h2.2

theorem C8_students_filter_is_intersection_witness :
    ["c", "zz", "a"] ≠ [] ∧
    (∀ id, id ∈ students PerStudent demoStore "cs1" ["c", "zz", "a"]
      ↔ id ∈ ["c", "zz", "a"] ∧ id ∈ demoStore.GetStringSlice ("cs1" ++ ".students")) ∧
    students PerStudent demoStore "cs1" ["c", "zz", "a"] = ["c", "a"] ∧
    students PerStudent demoStore "cs1" ["zz"] = [] :=
  ⟨by decide,
   (C8_students_filter_is_intersection demoStore "cs1" ["c", "zz", "a"] (by decide)).1,
   by decide,
   (C8_students_filter_is_intersection demoStore "cs1" ["zz"] (by decide)).2 (by decide)⟩

/-- C9: in `PerGroup` mode with a non-empty filter, the list returned by
`groups` contains a `Group` with name `n` and members `m` if and only if `n`
occurs in the filter and the stored group map maps `n` to `m`; a filter naming
no existing group yields the empty list.  This holds for every order in which
`range` may visit the maps. -/
theorem C9_groups_filter_is_allow_list (ρ : RangeOrder (List String)) (store : Store)
    (course : String) (only : List String) (hne : only ≠ []) :
    (∀ n m, ({ GroupName := n, Members := m } : Group) ∈ groups ρ PerGroup store course only
      ↔ n ∈ only ∧ (store.GetStringMapStringSlice (course ++ ".groups")).get? n = some m) ∧
    ((∀ n ∈ only, (store.GetStringMapStringSlice (course ++ ".groups")).get? n = none) →
      groups ρ PerGroup store course only = []) := by
  have key : ∀ n m, ({ GroupName := n, Members := m } : Group) ∈ groups ρ PerGroup store course only
      ↔ n ∈ only ∧ (store.GetStringMapStringSlice (course ++ ".groups")).get? n = some m := by
    intro n m
    rw [mem_groups_iff ρ PerGroup store course only PerGroup_ne_PerStudent, keptGroups_get?]
    simp only [hne, false_or]
    by_cases hn : n ∈ only
    · simp [hn]
    · simp [hn]
  refine ⟨key, ?_⟩
  intro h
  apply List.eq_nil_iff_forall_not_mem.2
  intro g hg
  have h2 := (key g.GroupName g.Members).1 hg
  rw [h g.GroupName h2.1] at h2
  exact absurd h2.2 (by simp)

theorem C9_groups_filter_is_allow_list_witness :
    ["g2", "zz", "g2"] ≠ [] ∧
    (∀ n m, ({ GroupName := n, Members := m } : Group)
        ∈ groups (RangeOrder.backwards _) PerGroup demoStore "cs1" ["g2", "zz", "g2"]
      ↔ n ∈ ["g2", "zz", "g2"] ∧
        (demoStore.GetStringMapStringSlice ("cs1" ++ ".groups")).get? n = some m) ∧
    groups (RangeOrder.backwards _) PerGroup demoStore "cs1" ["g2", "zz", "g2"]
      = [{ GroupName := "g2", Members := ["c"] }] ∧
    groups (RangeOrder.listed _) PerGroup demoStore "cs1" ["zz"] = [] :=
  ⟨by decide,
   (C9_groups_filter_is_allow_list (RangeOrder.backwards _) demoStore "cs1"
      ["g2", "zz", "g2"] (by decide)).1,
   by decide,
   (C9_groups_filter_is_allow_list (RangeOrder.listed _) demoStore "cs1" ["zz"]
      (by decide)).2 (by decide)⟩

/-! ## Startercode with `url` -/

/-- C10: when the startercode mapping of an assignment key maps `url` to a
value, `startercode` returns a `Startercode` whose `URL` is that value, whose
`FromBranch` is the stored `fromBranch` when that is non-empty and "master"
otherwise, whose `ToBranch` is the stored `toBranch` when that is non-empty and
"master" otherwise, and whose `ProtectToBranch` is the stored boolean; when
neither branch is stored and the boolean is unset the result is
master / master / false. -/
theorem C10_startercode_with_url (store : Store) (assignmentKey url : String)
    (hurl : (store.GetStringMapString (assignmentKey ++ ".startercode")).get? "url" = some url) :
    startercode store assignmentKey = .ok (some
      { URL := url
        FromBranch :=
          if store.GetString (assignmentKey ++ ".startercode.fromBranch") ≠ "" then
            store.GetString (assignmentKey ++ ".startercode.fromBranch")
          else "master"
        ToBranch :=
          if store.GetString (assignmentKey ++ ".startercode.toBranch") ≠ "" then
            store.GetString (assignmentKey ++ ".startercode.toBranch")
          else "master"
        ProtectToBranch :=
          store.GetBool (assignmentKey ++ ".startercode.protectToBranch") }) ∧
    (store.GetString (assignmentKey ++ ".startercode.fromBranch") = "" →
      store.GetString (assignmentKey ++ ".startercode.toBranch") = "" →
      store.GetBool (assignmentKey ++ ".startercode.protectToBranch") = false →
      startercode store assignmentKey = .ok (some
        { URL := url, FromBranch := "master", ToBranch := "master",
          ProtectToBranch := false })) := by
  have hlen : (store.GetStringMapString (assignmentKey ++ ".startercode")).len ≠ 0 := by
    intro h0
    have hnil : (store.GetStringMapString (assignmentKey ++ ".startercode")).entries = [] :=
      List.length_eq_zero.1 h0
    simp [GoMap.get?, hnil] at hurl
  have main : startercode store assignmentKey = .ok (some
      { URL := url
        FromBranch :=
          if store.GetString (assignmentKey ++ ".startercode.fromBranch") ≠ "" then
            store.GetString (assignmentKey ++ ".startercode.fromBranch")
          else "master"
        ToBranch :=
          if store.GetString (assignmentKey ++ ".startercode.toBranch") ≠ "" then
            store.GetString (assignmentKey ++ ".startercode.toBranch")
          else "master"
        ProtectToBranch :=
          store.GetBool (assignmentKey ++ ".startercode.protectToBranch") }) := by
    simp only [startercode, hlen, if_false, hurl, length_pos_iff_ne_empty]
  refine ⟨main, ?_⟩
  intro h1 h2 h3
  rw [main, h1, h2, h3]
  simp

theorem C10_startercode_with_url_witness :
    startercode demoStore "cs1.hw2" = .ok (some
      { URL := "git@host:starter.git", FromBranch := "master", ToBranch := "dev",
        ProtectToBranch := false }) ∧
    (demoStore.GetStringMapString ("cs1.hw5" ++ ".startercode")).entries
      = [("url", "git@host:plain.git")] ∧
    startercode demoStore "cs1.hw5" = .ok (some
      { URL := "git@host:plain.git", FromBranch := "master", ToBranch := "master",
        ProtectToBranch := false }) :=
  ⟨(C10_startercode_with_url demoStore "cs1.hw2" "git@host:starter.git" (by decide)).1,
   by decide,
   (C10_startercode_with_url demoStore "cs1.hw5" "git@host:plain.git" (by decide)).2
     (by decide) (by decide) (by decide)⟩

/-! ## Absent startercode -/

/-- C11: when the startercode mapping of an assignment key is empty,
`startercode` returns the absent value without any fatal condition, whatever
the store holds under the individual `startercode.fromBranch`,
`startercode.toBranch` and `startercode.protectToBranch` keys. -/
theorem C11_empty_startercode_is_absent (store : Store) (assignmentKey : String)
    (hlen : (store.GetStringMapString (assignmentKey ++ ".startercode")).len = 0) :
    startercode store assignmentKey = .ok none ∧
    ∀ msg, startercode store assignmentKey ≠ .error msg := by
  have h : startercode store assignmentKey = .ok none := by
    simp [startercode, hlen]
  exact ⟨h, fun msg => by simp [h]⟩

theorem C11_empty_startercode_is_absent_witness :
    demoStore.GetString ("cs1.hw4" ++ ".startercode.toBranch") = "" ∧
    startercode demoStore "cs1.hw4" = .ok none ∧
    startercode
      { demoStore with
        GetString := fun _ => "dev"
        GetBool := fun _ => true } "cs1.hw4" = .ok none :=
  ⟨by decide,
   (C11_empty_startercode_is_absent demoStore "cs1.hw4" (by decide)).1,
   (C11_empty_startercode_is_absent
      { demoStore with
        GetString := fun _ => "dev"
        GetBool := fun _ => true } "cs1.hw4" (by decide)).1⟩

/-! ## Path construction -/

/-- C12: `assignmentPath` is the coursepath, followed by "/" and the
semesterpath exactly when the semesterpath is non-empty, followed by "/" and
the assignmentpath exactly when that is non-empty; the segments are joined as
they are.  So coursepath `repo`, no semesterpath and assignmentpath `hw1dir`
give `repo/hw1dir`, and coursepath `repo`, semesterpath `f24` and no
assignmentpath give `repo/f24`. -/
theorem C12_assignmentPath_concatenation (store : Store) (course assignment : String) :
    assignmentPath store course assignment
      = store.GetString (course ++ ".coursepath")
        ++ (if store.GetString (course ++ ".semesterpath") ≠ "" then
              "/" ++ store.GetString (course ++ ".semesterpath") else "")
        ++ (if store.GetString (course ++ "." ++ assignment ++ ".assignmentpath") ≠ "" then
              "/" ++ store.GetString (course ++ "." ++ assignment ++ ".assignmentpath")
            else "") ∧
    (store.GetString (course ++ ".coursepath") = "repo" →
      store.GetString (course ++ ".semesterpath") = "" →
      store.GetString (course ++ "." ++ assignment ++ ".assignmentpath") = "hw1dir" →
      assignmentPath store course assignment = "repo/hw1dir") ∧
    (store.GetString (course ++ ".coursepath") = "repo" →
      store.GetString (course ++ ".semesterpath") = "f24" →
      store.GetString (course ++ "." ++ assignment ++ ".assignmentpath") = "" →
      assignmentPath store course assignment = "repo/f24") := by
  refine ⟨?_, ?_, ?_⟩
  · simp only [assignmentPath, length_pos_iff_ne_empty]
    split_ifs <;> simp [String.append_assoc]
  · intro h0 h1 h2
    simp only [assignmentPath, h0, h1, h2]
    decide
  · intro h0 h1 h2
    simp only [assignmentPath, h0, h1, h2]
    decide

theorem C12_assignmentPath_concatenation_witness :
    assignmentPath pathStore "cs1" "hw1" = "repo/hw1dir" ∧
    assignmentPath pathStore "cs3" "hw1" = "repo/f24" :=
  ⟨(C12_assignmentPath_concatenation pathStore "cs1" "hw1").2.1
      (by decide) (by decide) (by decide),
   (C12_assignmentPath_concatenation pathStore "cs3" "hw1").2.2
      (by decide) (by decide) (by decide)⟩

/-! ## End-to-end example -/

/-- C13: on the example store (course `cs1`, assignment `hw1`, `per` = group,
groups `g1` = a, b and `g2` = c, access level reporter) the resolution of
`cs1`, `hw1` without filter succeeds with Course `cs1`, Name `hw1`, mode
`PerGroup`, access level `Reporter` (20), no students, no startercode, and
groups that are exactly `g1` with members a, b and `g2` with member c, in
whichever order `range` visits the map. -/
theorem C13_end_to_end_example (ρ : RangeOrder (List String)) :
    ∃ cfg, GetAssignmentConfig ρ exampleStore "cs1" "hw1" [] = .ok cfg ∧
      cfg.Course = "cs1" ∧ cfg.Name = "hw1" ∧ cfg.Per = PerGroup ∧
      cfg.AccessLevel = Reporter ∧ cfg.AccessLevel = 20 ∧
      cfg.Students = [] ∧ cfg.Startercode = none ∧
      cfg.Groups.Perm
        [{ GroupName := "g1", Members := ["a", "b"] }, { GroupName := "g2", Members := ["c"] }] ∧
      cfg.Groups.length = 2 := by
  have hg : (groups ρ PerGroup exampleStore "cs1" []).Perm
      [{ GroupName := "g1", Members := ["a", "b"] }, { GroupName := "g2", Members := ["c"] }] := by
    rw [groups_eq ρ PerGroup exampleStore "cs1" [] PerGroup_ne_PerStudent]
    exact (ρ.perm 0 _).map _
  exact ⟨_, rfl, rfl, rfl, rfl, rfl, rfl, rfl, rfl, hg, hg.length_eq⟩

/-! ## Uniqueness of group names -/

/-- C14: for every group map, every filter (also one that names the same group
several times), every mode and every order in which `range` visits the maps,
the list returned by `groups` contains no two `Group`s with the same
`GroupName`. -/
theorem C14_group_names_unique (ρ : RangeOrder (List String)) (per : Per) (store : Store)
    (course : String) (only : List String) :
    ((groups ρ per store course only).map Group.GroupName).Nodup ∧
    ∀ g₁ ∈ groups ρ per store course only, ∀ g₂ ∈ groups ρ per store course only,
      g₁.GroupName = g₂.GroupName → g₁ = g₂ := by
  have hn := groups_names_nodup ρ per store course only
  refine ⟨hn, ?_⟩
  intro g₁ h₁ g₂ h₂ heq
  exact List.inj_on_of_nodup_map hn h₁ h₂ heq

/-! ## The URL of a startercode -/

/-- C15, as stated, fails: a startercode mapping that holds the key `url` with
the empty string as its value passes the presence check, and `startercode`
returns a `Startercode` whose URL is the empty string. -/
theorem C15_counterexample :
    (emptyUrlStore.GetStringMapString ("cs4.hw1" ++ ".startercode")).entries = [("url", "")] ∧
    startercode emptyUrlStore "cs4.hw1" = .ok (some
      { URL := "", FromBranch := "master", ToBranch := "master", ProtectToBranch := false }) ∧
    ∃ sc, startercode emptyUrlStore "cs4.hw1" = .ok (some sc) ∧ sc.URL = "" :=
  ⟨by decide, rfl, _, rfl, rfl⟩

/-- C15, amended: whenever `startercode` returns a `Startercode`, the
startercode mapping is non-empty and contains the key `url`, and the URL of the
result is the value mapped to that key; the URL is therefore non-empty exactly
when the mapped value is. -/
theorem C15_url_is_mapped_value (store : Store) (assignmentKey : String) (sc : Startercode)
    (h : startercode store assignmentKey = .ok (some sc)) :
    (store.GetStringMapString (assignmentKey ++ ".startercode")).len ≠ 0 ∧
    (store.GetStringMapString (assignmentKey ++ ".startercode")).get? "url" = some sc.URL ∧
    (sc.URL ≠ "" ↔
      ∃ url, (store.GetStringMapString (assignmentKey ++ ".startercode")).get? "url" = some url
        ∧ url ≠ "") := by
  obtain ⟨hlen, hurl⟩ := startercode_some store assignmentKey sc h
  refine ⟨hlen, hurl, ?_⟩
  constructor
  · intro hne
    exact ⟨sc.URL, hurl, hne⟩
  · rintro ⟨url, hu, hne⟩
    rw [hurl] at hu
    simp only [Option.some.injEq] at hu
    rw [hu]
    exact hne

theorem C15_url_is_mapped_value_witness :
    (demoStore.GetStringMapString ("cs1.hw5" ++ ".startercode")).get? "url"
      = some "git@host:plain.git" ∧
    (emptyUrlStore.GetStringMapString ("cs4.hw1" ++ ".startercode")).get? "url" = some "" :=
  ⟨(C15_url_is_mapped_value demoStore "cs1.hw5"
      { URL := "git@host:plain.git", FromBranch := "master", ToBranch := "master",
        ProtectToBranch := false } rfl).2.1,
   (C15_url_is_mapped_value emptyUrlStore "cs4.hw1"
      { URL := "", FromBranch := "master", ToBranch := "master",
        ProtectToBranch := false } rfl).2.1⟩

/-! ## Completeness of the fatal preconditions -/

/-- C16: the three fatal preconditions are the only ways resolution fails.  If
the course key is set, the assignment key is set, and the startercode mapping
is empty or contains the key `url`, then `GetAssignmentConfig` returns an
`AssignmentConfig`, built from the sub-resolvers, whatever `per`,
`accesslevel`, description, containerRegistry, branch names, roster, group map,
filter and range order are. -/
theorem C16_only_three_fatal_conditions (ρ : RangeOrder (List String)) (store : Store)
    (course assignment : String) (only : List String)
    (hc : store.IsSet course = true)
    (ha : store.IsSet (course ++ "." ++ assignment) = true)
    (hs : (store.GetStringMapString (course ++ "." ++ assignment ++ ".startercode")).len = 0 ∨
      ∃ url, (store.GetStringMapString (course ++ "." ++ assignment ++ ".startercode")).get?
        "url" = some url) :
    ∃ sc, startercode store (course ++ "." ++ assignment) = .ok sc ∧
      GetAssignmentConfig ρ store course assignment only = .ok
        { Course := course
          Name := assignment
          Path := assignmentPath store course assignment
          Per := per store (course ++ "." ++ assignment)
          Description := description store (course ++ "." ++ assignment)
          ContainerRegistry :=
            store.GetBool (course ++ "." ++ assignment ++ ".containerRegistry")
          AccessLevel := accessLevel store (course ++ "." ++ assignment)
          Students := students (per store (course ++ "." ++ assignment)) store course only
          Groups := groups ρ (per store (course ++ "." ++ assignment)) store course only
          Startercode := sc } := by
  obtain ⟨sc, hsc⟩ := startercode_ok_of store (course ++ "." ++ assignment) hs
  refine ⟨sc, hsc, ?_⟩
  simp only [GetAssignmentConfig, hc, ha, hsc, Bool.not_true, Bool.false_eq_true, if_false]

theorem C16_only_three_fatal_conditions_witness :
    ∃ sc, startercode demoStore ("cs1" ++ "." ++ "hw2") = .ok sc ∧
      GetAssignmentConfig (RangeOrder.backwards _) demoStore "cs1" "hw2" ["zz", "b"] = .ok
        { Course := "cs1"
          Name := "hw2"
          Path := assignmentPath demoStore "cs1" "hw2"
          Per := per demoStore ("cs1" ++ "." ++ "hw2")
          Description := description demoStore ("cs1" ++ "." ++ "hw2")
          ContainerRegistry := demoStore.GetBool ("cs1" ++ "." ++ "hw2" ++ ".containerRegistry")
          AccessLevel := accessLevel demoStore ("cs1" ++ "." ++ "hw2")
          Students := students (per demoStore ("cs1" ++ "." ++ "hw2")) demoStore "cs1" ["zz", "b"]
          Groups :=
            groups (RangeOrder.backwards _) (per demoStore ("cs1" ++ "." ++ "hw2")) demoStore
              "cs1" ["zz", "b"]
          Startercode := sc } :=
  C16_only_three_fatal_conditions (RangeOrder.backwards _) demoStore "cs1" "hw2" ["zz", "b"]
    (by decide) (by decide) (Or.inr ⟨"git@host:starter.git", by decide⟩)

/-! ## Order of the filtered roster -/

/-- C17: in `PerStudent` mode with a non-empty filter, the list returned by
`students` is ordered by the filter: it is the concatenation, over the filter
entries `f` in filter order, of one copy of `f` per occurrence of `f` in the
roster.  Hence an id occurs in it as often as the product of its occurrences
in the filter and in the roster; when the roster has no duplicates the result
is the filter with the non-roster ids removed, and a roster id named `k` times
in the filter occurs `k` times. -/
theorem C17_students_follow_filter_order (store : Store) (course : String)
    (only : List String) (hne : only ≠ []) :
    students PerStudent store course only
      = only.flatMap (fun f =>
          List.replicate ((store.GetStringSlice (course ++ ".students")).count f) f) ∧
    (∀ id, (students PerStudent store course only).count id
      = only.count id * (store.GetStringSlice (course ++ ".students")).count id) ∧
    ((store.GetStringSlice (course ++ ".students")).Nodup →
      students PerStudent store course only
        = only.filter (fun f => decide (f ∈ store.GetStringSlice (course ++ ".students"))) ∧
      ∀ id ∈ store.GetStringSlice (course ++ ".students"),
        (students PerStudent store course only).count id = only.count id) := by
  have heq := students_eq_flatMap store course only hne
  have hcount : ∀ id, (students PerStudent store course only).count id
      = only.count id * (store.GetStringSlice (course ++ ".students")).count id := by
    intro id
    rw [heq, count_flatMap_replicate]
  refine ⟨heq, hcount, ?_⟩
  intro hnd
  refine ⟨?_, ?_⟩
  · rw [heq, flatMap_replicate_of_nodup _ _ hnd]
  · intro id hid
    rw [hcount id, List.count_eq_one_of_mem hnd hid, Nat.mul_one]

theorem C17_students_follow_filter_order_witness :
    students PerStudent demoStore "cs1" ["c", "zz", "a", "c"] = ["c", "a", "c"] ∧
    (students PerStudent demoStore "cs1" ["c", "zz", "a", "c"]).count "c" = 2 ∧
    students PerStudent repeatedStore "cs6" ["b", "a"] = ["b", "a", "a"] :=
  ⟨((C17_students_follow_filter_order demoStore "cs1" ["c", "zz", "a", "c"]
      (by decide)).2.2 (by decide)).1,
   ((C17_students_follow_filter_order demoStore "cs1" ["c", "zz", "a", "c"]
      (by decide)).2.2 (by decide)).2 "c" (by decide),
   (C17_students_follow_filter_order repeatedStore "cs6" ["b", "a"] (by decide)).1⟩

/-- C18, as stated, fails: with the roster `a, b, c` and the filter `c, a` the
list returned by `students` is `c, a`, which is neither the roster with the
non-matching ids removed (`a, c`) nor a subsequence of the roster. -/
theorem C18_counterexample :
    demoStore.GetStringSlice ("cs1" ++ ".students") = ["a", "b", "c"] ∧
    students PerStudent demoStore "cs1" ["c", "a"] = ["c", "a"] ∧
    students PerStudent demoStore "cs1" ["c", "a"]
      ≠ (demoStore.GetStringSlice ("cs1" ++ ".students")).filter
          (fun s => decide (s ∈ ["c", "a"])) ∧
    ¬ (students PerStudent demoStore "cs1" ["c", "a"]).Sublist
        (demoStore.GetStringSlice ("cs1" ++ ".students")) :=
  ⟨by decide, by decide, by decide, by decide⟩

/-- C18, amended: in `PerStudent` mode with a non-empty filter the outer loop
runs over the filter, so the list returned by `students` follows the order of
the filter and not that of the roster.  When the filter names no id twice, the
result is a rearrangement of the roster with the non-matching ids removed;
when the roster has no duplicates, the result is a subsequence of the filter. -/
theorem C18_students_rearranged_roster (store : Store) (course : String)
    (only : List String) (hne : only ≠ []) :
    (only.Nodup →
      (students PerStudent store course only).Perm
        ((store.GetStringSlice (course ++ ".students")).filter
          (fun s => decide (s ∈ only)))) ∧
    ((store.GetStringSlice (course ++ ".students")).Nodup →
      (students PerStudent store course only).Sublist only) := by
  have heq := students_eq_flatMap store course only hne
  refine ⟨?_, ?_⟩
  · intro hnd
    rw [List.perm_iff_count]
    intro id
    rw [heq, count_flatMap_replicate]
    by_cases hid : id ∈ only
    · rw [List.count_eq_one_of_mem hnd hid, Nat.one_mul, List.count_filter (by simpa using hid)]
    · have h0 : List.count id ((store.GetStringSlice (course ++ ".students")).filter
          (fun s => decide (s ∈ only))) = 0 := by
        apply List.count_eq_zero_of_not_mem
        intro hmem
        have := (List.mem_filter.1 hmem).2
        exact hid (by simpa using this)
      rw [List.count_eq_zero_of_not_mem hid, Nat.zero_mul, h0]
  · intro hnd
    rw [heq, flatMap_replicate_of_nodup _ _ hnd]
    exact List.filter_sublist only

theorem C18_students_rearranged_roster_witness :
    (students PerStudent demoStore "cs1" ["c", "a"]).Perm
      ((demoStore.GetStringSlice ("cs1" ++ ".students")).filter
        (fun s => decide (s ∈ ["c", "a"]))) ∧
    (students PerStudent demoStore "cs1" ["c", "a"]).Sublist ["c", "a"] :=
  ⟨(C18_students_rearranged_roster demoStore "cs1" ["c", "a"] (by decide)).1 (by decide),
   (C18_students_rearranged_roster demoStore "cs1" ["c", "a"] (by decide)).2 (by decide)⟩

/-! ## Description -/

/-- C19: `description` returns the string stored at
`<assignmentKey>.description` when that string is non-empty and the default
"generated by glabs" otherwise; so the Description of a resolved
`AssignmentConfig` is never the empty string. -/
theorem C19_description_default (store : Store) (assignmentKey : String) :
    (store.GetString (assignmentKey ++ ".description") ≠ "" →
      description store assignmentKey = store.GetString (assignmentKey ++ ".description")) ∧
    (store.GetString (assignmentKey ++ ".description") = "" →
      description store assignmentKey = "generated by glabs") ∧
    description store assignmentKey ≠ "" ∧
    ∀ (ρ : RangeOrder (List String)) (course assignment : String) (only : List String)
      (cfg : AssignmentConfig),
      GetAssignmentConfig ρ store course assignment only = .ok cfg → cfg.Description ≠ "" := by
  have hdef : "generated by glabs" ≠ "" := by decide
  have key : ∀ k, description store k ≠ "" := by
    intro k
    by_cases h : store.GetString (k ++ ".description") = ""
    · simp [description, h]
    · simp [description, h]
  refine ⟨fun h => by simp [description, h], fun h => by simp [description, h],
    key assignmentKey, ?_⟩
  intro ρ course assignment only cfg h
  rw [GetAssignmentConfig_description ρ store course assignment only cfg h]
  exact key _

theorem C19_description_default_witness :
    description describedStore "cs5.hw1" = "week one" ∧
    description describedStore "cs5.hw2" = "generated by glabs" ∧
    ∃ cfg, GetAssignmentConfig (RangeOrder.listed _) describedStore "cs5" "hw2" [] = .ok cfg ∧
      cfg.Description ≠ "" :=
  ⟨(C19_description_default describedStore "cs5.hw1").1 (by decide),
   (C19_description_default describedStore "cs5.hw2").2.1 (by decide),
   _, rfl,
   (C19_description_default describedStore "cs5.hw2").2.2.2 (RangeOrder.listed _)
     "cs5" "hw2" [] _ rfl⟩

/-! ## The filter as a set of names -/

/-- C20: in `PerGroup` mode the groups returned depend only on the set of names
in a non-empty filter.  For two non-empty filters that contain the same names,
in any order and with any repetitions, and for any orders in which `range`
visits the maps, `groups` returns the same collection of groups; each kept
group appears exactly once, and there are never more groups in the result than
entries in the stored group map. -/
theorem C20_groups_depend_on_name_set (ρ₁ ρ₂ : RangeOrder (List String)) (store : Store)
    (course : String) (only₁ only₂ : List String) (h₁ : only₁ ≠ []) (h₂ : only₂ ≠ [])
    (hsame : ∀ n, n ∈ only₁ ↔ n ∈ only₂) :
    (groups ρ₁ PerGroup store course only₁).Perm (groups ρ₂ PerGroup store course only₂) ∧
    (groups ρ₁ PerGroup store course only₁).Nodup ∧
    (∀ g ∈ groups ρ₁ PerGroup store course only₁,
      (groups ρ₁ PerGroup store course only₁).count g = 1) ∧
    (groups ρ₁ PerGroup store course only₁).length
      ≤ (store.GetStringMapStringSlice (course ++ ".groups")).len := by
  have d₁ := groups_nodup ρ₁ PerGroup store course only₁
  have d₂ := groups_nodup ρ₂ PerGroup store course only₂
  refine ⟨?_, d₁, fun g hg => List.count_eq_one_of_mem d₁ hg,
    groups_length_le ρ₁ PerGroup store course only₁⟩
  rw [List.perm_ext_iff_of_nodup d₁ d₂]
  intro g
  have e₁ := mem_groups_iff ρ₁ PerGroup store course only₁ PerGroup_ne_PerStudent
    g.GroupName g.Members
  have e₂ := mem_groups_iff ρ₂ PerGroup store course only₂ PerGroup_ne_PerStudent
    g.GroupName g.Members
  rw [keptGroups_get?] at e₁ e₂
  simp only [h₁, h₂, false_or, hsame] at e₁ e₂
  exact e₁.trans e₂.symm

theorem C20_groups_depend_on_name_set_witness :
    (groups (RangeOrder.listed _) PerGroup demoStore "cs1" ["g2", "g1", "zz", "g2"]).Perm
      (groups (RangeOrder.backwards _) PerGroup demoStore "cs1" ["zz", "g1", "g1", "g2"]) ∧
    groups (RangeOrder.listed _) PerGroup demoStore "cs1" ["g2", "g1", "zz", "g2"]
      = [{ GroupName := "g2", Members := ["c"] }, { GroupName := "g1", Members := ["a", "b"] }] ∧
    groups (RangeOrder.backwards _) PerGroup demoStore "cs1" ["zz", "g1", "g1", "g2"]
      = [{ GroupName := "g2", Members := ["c"] }, { GroupName := "g1", Members := ["a", "b"] }] :=
  ⟨(C20_groups_depend_on_name_set (RangeOrder.listed _) (RangeOrder.backwards _) demoStore
      "cs1" ["g2", "g1", "zz", "g2"] ["zz", "g1", "g1", "g2"] (by decide) (by decide)
      (fun n => by
        simp only [List.mem_cons, List.mem_singleton, List.not_mem_nil, or_false]
        tauto)).1,
   by decide, by decide⟩

end Glabs
